import Mathlib

/-!
Verification development for the media-library indexer ("seen").

The Rust sources are shallowly embedded: pure decision logic becomes Lean
functions, stateful components become explicit state-passing functions, and
SQL statements over the catalog are modelled as functions over an in-memory
list of rows.  Strings are modelled as `List Char` (Rust `String`/`&str`),
byte buffers as `List Nat`, and `i64`/`u64` machine integers as `Int`/`Nat`
with explicit `% 2^64` where wrap-around matters.
-/

namespace Seen

/-! ## String utilities (Rust `str` operations on `List Char`) -/

/-- Rust `str::starts_with`: `startsWithL s pre` is true when `pre` is an
initial segment of `s`. -/
def startsWithL : List Char → List Char → Bool
  | _, [] => true
  | [], _ :: _ => false
  | c :: cs, d :: ds => c == d && startsWithL cs ds

/-- Rust `char::is_whitespace` restricted to the ASCII whitespace that the
repository's inputs contain. -/
def isWsChar (c : Char) : Bool := c == ' ' || c == '\t' || c == '\n' || c == '\r'

/-- Rust `str::trim`: drop whitespace from both ends. -/
def trimL (s : List Char) : List Char :=
  ((s.dropWhile isWsChar).reverse.dropWhile isWsChar).reverse

/-- Rust `str::to_lowercase` (ASCII case folding suffices for the inputs). -/
def toLowerL (s : List Char) : List Char := s.map Char.toLower

/-- Rust `str::split_once(sep)`: split at the first occurrence of `sep`. -/
def splitOnceChar (sep : Char) : List Char → Option (List Char × List Char)
  | [] => none
  | c :: rest =>
    if c == sep then some ([], rest)
    else
      match splitOnceChar sep rest with
      | some (a, b) => some (c :: a, b)
      | none => none

/-- Worker for `wordsL`; the fuel (one unit per word) makes the recursion
structural, and `s.length + 1` units always suffice. -/
def wordsAux : Nat → List Char → List (List Char)
  | 0, _ => []
  | fuel + 1, s =>
    match s.dropWhile isWsChar with
    | [] => []
    | c :: cs =>
      (c :: cs).takeWhile (fun x => !isWsChar x) ::
        wordsAux fuel ((c :: cs).dropWhile (fun x => !isWsChar x))

/-- Rust `str::split_whitespace().collect()`: the whitespace-separated words. -/
def wordsL (s : List Char) : List (List Char) := wordsAux (s.length + 1) s

/-! ## Data model

`AssetR` models one row of the `assets` table (src/db/schema.rs, src/models/asset.rs),
restricted to the columns the verified queries read.  `sha256` is a byte blob,
`xxh64`/sizes/timestamps are SQLite INTEGER (`i64`), text columns are `List Char`,
nullable columns are `Option`. -/

structure AssetR where
  id : Int
  path : List Char
  dirname : List Char
  filename : List Char
  ext : List Char
  size_bytes : Int
  mtime_ns : Int
  ctime_ns : Int
  sha256 : Option (List Nat)
  xxh64 : Option Int
  taken_at : Option Int
  width : Option Int
  height : Option Int
  duration_ms : Option Int
  camera_make : Option (List Char)
  camera_model : Option (List Char)
  mime : List Char
deriving Repr, DecidableEq

def imageSlash : List Char := "image/".toList
def videoSlash : List Char := "video/".toList

/-! ## Skip-gate forwarder (src/pipeline/discover.rs `start_forwarder`,
src/db/query.rs `check_file_unchanged` / `check_metadata_complete`) -/

/-- `DiscoverItem` (src/pipeline/discover.rs). -/
structure DiscoverItem where
  path : List Char
  size_bytes : Int
  mtime_ns : Int
  ctime_ns : Int
  dirname : List Char
  filename : List Char
  ext : List Char
  mime : List Char
deriving Repr, DecidableEq

/-- `HashJob` (src/pipeline/hash.rs). -/
structure HashJob where
  path : List Char
  size_bytes : Int
  mtime_ns : Int
  ctime_ns : Int
  dirname : List Char
  filename : List Char
  ext : List Char
  mime : List Char
deriving Repr, DecidableEq

/-- `MetaJob` (src/pipeline/metadata.rs). -/
structure MetaJob where
  job : HashJob
  xxh64 : Option Int
  sha256 : Option (List Nat)
deriving Repr, DecidableEq

/-- The field-by-field `HashJob` construction in `start_forwarder`. -/
def hashJobOfItem (it : DiscoverItem) : HashJob :=
  { path := it.path, size_bytes := it.size_bytes, mtime_ns := it.mtime_ns,
    ctime_ns := it.ctime_ns, dirname := it.dirname, filename := it.filename,
    ext := it.ext, mime := it.mime }

/-- `check_file_unchanged` (src/db/query.rs):
`SELECT id, xxh64, sha256 FROM assets WHERE path = ? AND mtime_ns = ? AND size_bytes = ?`,
returning the first matching row. -/
def check_file_unchanged (table : List AssetR) (path : List Char)
    (mtime_ns size_bytes : Int) : Option (Int × Option Int × Option (List Nat)) :=
  (table.find? (fun r =>
      r.path == path && r.mtime_ns == mtime_ns && r.size_bytes == size_bytes)).map
    (fun r => (r.id, r.xxh64, r.sha256))

/-- `check_metadata_complete` (src/db/query.rs):
`SELECT width, height, duration_ms FROM assets WHERE id = ?`, then
images need width and height, videos need duration or width+height,
anything else counts as incomplete; a missing row is incomplete. -/
def check_metadata_complete (table : List AssetR) (id : Int) (mime : List Char) : Bool :=
  match table.find? (fun r => r.id == id) with
  | some r =>
    if startsWithL mime imageSlash then r.width.isSome && r.height.isSome
    else if startsWithL mime videoSlash then
      r.duration_ms.isSome || (r.width.isSome && r.height.isSome)
    else false
  | none => false

/-- What the forwarder does with one received item. -/
inductive ForwardAction where
  | dropNonMedia
  | toHash (job : HashJob)
  | skipEntirely
  | toMetadata (mj : MetaJob)
deriving Repr, DecidableEq

/-- The per-item body of `start_forwarder` (src/pipeline/discover.rs lines
120-181), as wired in src/main.rs where both the catalog connection and the
metadata channel are present.  Non-media items are dropped; otherwise the
catalog is consulted by `(path, mtime_ns, size_bytes)` and the item is either
skipped, sent straight to the metadata queue with the stored digests, or
forwarded to the hash queue. -/
def forwarder_action (table : List AssetR) (it : DiscoverItem) : ForwardAction :=
  if !(startsWithL it.mime imageSlash) && !(startsWithL it.mime videoSlash) then
    .dropNonMedia
  else
    match check_file_unchanged table it.path it.mtime_ns it.size_bytes with
    | some (id, xxh64, sha256) =>
      match sha256 with
      | some s =>
        if check_metadata_complete table id it.mime then .skipEntirely
        else .toMetadata { job := hashJobOfItem it, xxh64 := xxh64, sha256 := some s }
      | none => .toHash (hashJobOfItem it)
    | none => .toHash (hashJobOfItem it)

/-! ## Catalog writer (src/db/writer.rs `upsert_item` / `commit_batch`)

The SQL effects of one batch commit are modelled as a trace of committed
transactions, each a list of statements. -/

/-- `DbWriteItem` (src/db/writer.rs).  The `f64` fields (`fnumber`,
`exposure`) are carried as opaque `Option Int` payloads: no verified claim
reads them and they flow through the writer unchanged. -/
structure DbWriteItem where
  path : List Char
  dirname : List Char
  filename : List Char
  ext : List Char
  size_bytes : Int
  mtime_ns : Int
  ctime_ns : Int
  sha256 : Option (List Nat)
  xxh64 : Option Int
  taken_at : Option Int
  width : Option Int
  height : Option Int
  duration_ms : Option Int
  camera_make : Option (List Char)
  camera_model : Option (List Char)
  lens_model : Option (List Char)
  iso : Option Int
  fnumber : Option Int
  exposure : Option Int
  video_codec : Option (List Char)
  mime : List Char
  flags : Int
deriving Repr, DecidableEq

/-- A statement executed against the catalog by the writer. -/
inductive SqlOp where
  | upsertAsset (id : Int) (it : DbWriteItem)
  | ftsInsert (rowid : Int) (filename dirname path : List Char)
deriving Repr, DecidableEq

/-- The `assets` table as the writer sees it: assigned ids plus the SQLite
rowid counter that `RETURNING id` reflects. -/
structure Catalog where
  rows : List (Int × DbWriteItem)
  nextId : Int
deriving Repr, DecidableEq

/-- `upsert_item` (src/db/writer.rs): `INSERT ... ON CONFLICT(path) DO UPDATE
... RETURNING id`.  A path conflict overwrites the full row keeping its id;
otherwise a fresh id is allocated. -/
def upsert_item (c : Catalog) (it : DbWriteItem) : Int × Catalog :=
  match c.rows.find? (fun p => p.2.path == it.path) with
  | some (id, _) =>
    (id, { c with rows := c.rows.map (fun p => if p.2.path == it.path then (id, it) else p) })
  | none =>
    (c.nextId, { rows := c.rows ++ [(c.nextId, it)], nextId := c.nextId + 1 })

/-- The upsert loop of `commit_batch`: upsert every buffered item in order,
collecting `(id, item)` into `fts_rows` exactly as the Rust loop pushes
`(id, filename, dirname, path, sha256, mime)`. -/
def upsertAll : Catalog → List DbWriteItem → Catalog × List (Int × DbWriteItem)
  | c, [] => (c, [])
  | c, it :: rest =>
    let r := upsert_item c it
    let t := upsertAll r.2 rest
    (t.1, (r.1, it) :: t.2)

/-- `commit_batch` (src/db/writer.rs lines 209-264), success path, restricted
to its SQL effects: a first transaction committing all asset upserts, then —
when `fts_rows` is non-empty — a second transaction committing one
`INSERT INTO fts_assets(rowid, filename, dirname, path)` per upserted row.
Returns the updated catalog and the trace of committed transactions. -/
def commit_batch (c : Catalog) (buf : List DbWriteItem) : Catalog × List (List SqlOp) :=
  let u := upsertAll c buf
  let upsertTx := u.2.map (fun p => SqlOp.upsertAsset p.1 p.2)
  if u.2.isEmpty then (u.1, [upsertTx])
  else
    (u.1, [upsertTx,
           u.2.map (fun p => SqlOp.ftsInsert p.1 p.2.filename p.2.dirname p.2.path)])

/-- The FTS row that matches an asset upsert. -/
def matchingFts (id : Int) (it : DbWriteItem) : SqlOp :=
  .ftsInsert id it.filename it.dirname it.path

/-- One transaction satisfies the "upsert and FTS row together" invariant. -/
def upsertsHaveFtsHere (t : List SqlOp) : Bool :=
  t.all (fun op =>
    match op with
    | .upsertAsset id it => t.contains (matchingFts id it)
    | .ftsInsert _ _ _ _ => true)

/-- The claim's invariant on a batch trace: every upsert has its FTS row in
the same transaction, and the whole batch is a single transaction. -/
def sameTransactionClaim (trace : List (List SqlOp)) : Bool :=
  trace.all upsertsHaveFtsHere && decide (trace.length ≤ 1)

/-! ## Ranged video streaming (src/api/handlers.rs `parse_range` /
`serve_video_file`) -/

/-- Strip the single optional leading `+` sign accepted by `u64::from_str`. -/
def stripPlus : List Char → List Char
  | '+' :: rest => rest
  | s => s

/-- Rust `str::parse::<u64>()`: an optional leading `+`, then at least one
decimal digit, value below `2^64`. -/
def parseU64 (s : List Char) : Option Nat :=
  let digits := stripPlus s
  if digits.isEmpty then none
  else if digits.all Char.isDigit then
    let v := digits.foldl (fun acc c => acc * 10 + (c.toNat - 48)) 0
    if v < 2 ^ 64 then some v else none
  else none

/-- `parse_range` (src/api/handlers.rs lines 1791-1813): strip `bytes=`,
split at the first `-`; an empty start is 0, an empty end is
`file_size - 1` (`u64` arithmetic, hence the wrap-around when
`file_size = 0`); the range is accepted iff `start <= end && end < file_size`. -/
def parse_range (rangeStr : List Char) (fileSize : Nat) : Option (Nat × Nat) :=
  if startsWithL rangeStr ("bytes=".toList) then
    match splitOnceChar '-' (rangeStr.drop 6) with
    | some (startStr, endStr) =>
      match (if startStr.isEmpty then some 0 else parseU64 startStr) with
      | none => none
      | some s =>
        match (if endStr.isEmpty then some ((fileSize + (2 ^ 64 - 1)) % 2 ^ 64)
               else parseU64 endStr) with
        | none => none
        | some e => if s ≤ e ∧ e < fileSize then some (s, e) else none
    | none => none
  else none

/-- The response fields `serve_video_file` sets.  `contentRange` holds the
`(start, end, size)` of a `Content-Range: bytes start-end/size` header. -/
structure HttpResponse where
  status : Nat
  body : List Nat
  contentType : List Char
  contentLength : Nat
  contentRange : Option (Nat × Nat × Nat)
  acceptRangesBytes : Bool
  corsAllowAll : Bool
deriving Repr, DecidableEq

/-- The 200-whole-file response of `serve_video_file`. -/
def fullFileResponse (file : List Nat) (mime : List Char) : HttpResponse :=
  { status := 200, body := file, contentType := mime, contentLength := file.length,
    contentRange := none, acceptRangesBytes := true, corsAllowAll := true }

/-- `serve_video_file` (src/api/handlers.rs lines 1405-1492) on an existing
regular file, with the I/O reads modelled as succeeding (the 206 branch only
reads `end - start + 1` bytes from offset `start`, which exist because
`parse_range` guarantees `end < file_size`).  A parsed range yields 206 with
exactly the requested slice; a missing or unparsable range header yields the
whole file with 200. -/
def serve_video_file (file : List Nat) (mime : List Char)
    (rangeHeader : Option (List Char)) : HttpResponse :=
  match rangeHeader with
  | some rs =>
    match parse_range rs file.length with
    | some (s, e) =>
      { status := 206, body := (file.drop s).take (e - s + 1), contentType := mime,
        contentLength := e - s + 1, contentRange := some (s, e, file.length),
        acceptRangesBytes := true, corsAllowAll := true }
    | none => fullFileResponse file mime
  | none => fullFileResponse file mime

/-! ## Hasher pool (src/pipeline/hash.rs `hash_file` / `start_workers`)

The external streaming digests (xxh3 from the `xxhash-rust` crate, SHA-256
from the `sha2` crate) are abstracted as incremental hashers: an initial
state and an `update` step fed with byte chunks.  `hash_file` only relies on
the streaming laws `upd st (a ++ b) = upd (upd st a) b` and `upd st [] = st`,
which every streaming hash satisfies. -/

/-- An incremental hasher: `xxh3::Xxh3::new()/update` or `Sha256::new()/update`. -/
structure StreamHasher (σ : Type) where
  init : σ
  upd : σ → List Nat → σ

/-- Updating with concatenated input equals updating twice. -/
def updAppendLaw {σ : Type} (H : StreamHasher σ) : Prop :=
  ∀ s a b, H.upd s (a ++ b) = H.upd (H.upd s a) b

/-- Updating with no input is the identity. -/
def updNilLaw {σ : Type} (H : StreamHasher σ) : Prop :=
  ∀ s, H.upd s [] = s

/-- Worker for `chunksOf`; the fuel (one unit per chunk) makes the recursion
structural, and `l.length + 1` units suffice whenever `0 < k`. -/
def chunksAux (k : Nat) : Nat → List Nat → List (List Nat)
  | 0, _ => []
  | _, [] => []
  | fuel + 1, c :: cs => (c :: cs).take k :: chunksAux k fuel ((c :: cs).drop k)

/-- The chunking loop of the mmap path (`offset/end` in `CHUNK_SIZE` steps)
and equally the full-buffer reads of the buffered path: split a byte list
into consecutive chunks of `k` bytes (the last one shorter). -/
def chunksOf (k : Nat) (l : List Nat) : List (List Nat) :=
  chunksAux k (l.length + 1) l

/-- The mmap strategy of `hash_file` (src/pipeline/hash.rs lines 42-69): map
the file and feed the digest with consecutive 4 MiB chunks. -/
def mmapDigestState {σ : Type} (H : StreamHasher σ) (content : List Nat) : σ :=
  (chunksOf (4 * 1024 * 1024) content).foldl H.upd H.init

/-- The buffered strategy of `hash_file` (src/pipeline/hash.rs lines 70-91):
a 4 MiB `BufReader` loop feeding the digest with whatever each `read` returns.
`reads` is the sequence of non-deterministic read results; the `Read`
contract guarantees only that their concatenation is the file content. -/
def bufferedDigestState {σ : Type} (H : StreamHasher σ) (reads : List (List Nat)) : σ :=
  reads.foldl H.upd H.init

/-- `hash_file` (src/pipeline/hash.rs lines 32-92), success path, over the
file's bytes.  `size_bytes` comes from the discover-time stat and equals the
content length here.  SHA-256 is computed iff the MIME starts with `video/`
or the size is under 64 MiB; files of at least 8 MiB take the mmap strategy,
smaller ones the buffered strategy (shown with full 4 MiB reads, the
deterministic read pattern; `hash_file_strategy_equivalence` covers every
other read pattern). -/
def hash_file {σx σs : Type} (X : StreamHasher σx) (finX : σx → Int)
    (S : StreamHasher σs) (finS : σs → List Nat)
    (content : List Nat) (mime : List Char) : Int × Option (List Nat) :=
  let size_bytes : Int := content.length
  let is_video := startsWithL mime videoSlash
  let calculate_sha256 := is_video || decide (size_bytes < 64 * 1024 * 1024)
  if 8 * 1024 * 1024 ≤ size_bytes then
    (finX (mmapDigestState X content),
     if calculate_sha256 then some (finS (mmapDigestState S content)) else none)
  else
    (finX (bufferedDigestState X (chunksOf (4 * 1024 * 1024) content)),
     if calculate_sha256 then
       some (finS (bufferedDigestState S (chunksOf (4 * 1024 * 1024) content)))
     else none)

/-- The per-job body of the hash worker (src/pipeline/hash.rs lines 126-148):
`xxh64` starts at 0 and `sha256` at `None`; a successful hash overwrites
them, a failure only logs; either way exactly one `MetaJob` is sent. -/
def process_hash_job (job : HashJob)
    (hashResult : Except (List Char) (Int × Option (List Nat))) : MetaJob :=
  match hashResult with
  | .ok (x, s) => { job := job, xxh64 := some x, sha256 := s }
  | .error _ => { job := job, xxh64 := some 0, sha256 := none }

/-- A hash worker draining its queue: one output per input job, in order.
`hashFn` is the outcome of `hash_file` for each job (error = any I/O or task
failure). -/
def hash_worker_outputs
    (hashFn : HashJob → Except (List Char) (Int × Option (List Nat)))
    (jobs : List HashJob) : List MetaJob :=
  jobs.map (fun j => process_hash_job j (hashFn j))

/-! ## Queue depth gauges (src/pipeline/mod.rs `QueueGauges` and their update
sites in discover_linux.rs, discover.rs, hash.rs, metadata.rs, writer.rs,
thumb.rs)

One bounded channel together with its `AtomicUsize` gauge.  `fetch_add` /
`fetch_sub` on `AtomicUsize` wrap modulo `2^64`. -/

structure GaugedQueue (J : Type) where
  items : List J
  gauge : Nat
deriving Repr, DecidableEq

/-- A blocking producer send followed by `gauge.fetch_add(1)` — the pattern
of every discover/hash/metadata/db-write producer (e.g.
src/pipeline/discover_linux.rs lines 412-431, discover.rs lines 163-179,
metadata.rs lines 137-138). -/
def sendAndCount {J : Type} (q : GaugedQueue J) (j : J) : GaugedQueue J :=
  { items := q.items ++ [j], gauge := (q.gauge + 1) % 2 ^ 64 }

/-- A consumer receive followed by `gauge.fetch_sub(1)` — the pattern of
every queue consumer (e.g. discover.rs line 121, hash.rs line 127,
metadata.rs line 80, writer.rs line 142, thumb.rs line 392). -/
def recvAndCount {J : Type} (q : GaugedQueue J) : Option (J × GaugedQueue J) :=
  match q.items with
  | [] => none
  | j :: rest => some (j, { items := rest, gauge := (q.gauge + (2 ^ 64 - 1)) % 2 ^ 64 })

/-- The thumbnail enqueue of `commit_batch` (src/db/writer.rs lines 242-248):
`thumb_tx.try_send(..)` with the result discarded — a full channel (at
capacity `cap`) silently drops the job — followed **unconditionally** by
`gauges.thumb.fetch_add(1)`. -/
def thumbTrySendAndCount {J : Type} (cap : Nat) (q : GaugedQueue J) (j : J) : GaugedQueue J :=
  { items := if q.items.length < cap then q.items ++ [j] else q.items,
    gauge := (q.gauge + 1) % 2 ^ 64 }

/-- The gauge mirrors the number of in-flight items. -/
def gaugeAccurate {J : Type} (q : GaugedQueue J) : Prop := q.gauge = q.items.length

/-! ## GPU circuit breaker (src/utils/ffmpeg.rs)

`GPU_STATS` and `GPU_FAILURE_TRACKER` merged into one state record. -/

structure GpuState where
  jobs_gpu : Nat
  jobs_cpu : Nat
  consecutive_failures : Nat
  auto_disabled : Bool
  cpu_jobs_since_last_retry : Nat
deriving Repr, DecidableEq

/-- The `Default` tracker/stats at process start: all counters zero, breaker
enabled. -/
def gpuInit : GpuState :=
  { jobs_gpu := 0, jobs_cpu := 0, consecutive_failures := 0,
    auto_disabled := false, cpu_jobs_since_last_retry := 0 }

/-- `record_gpu_failure` (src/utils/ffmpeg.rs lines 123-132): bump the
consecutive-failure count and auto-disable once it reaches 3. -/
def record_gpu_failure (s : GpuState) : GpuState :=
  let f := s.consecutive_failures + 1
  if 3 ≤ f ∧ s.auto_disabled = false then
    { s with consecutive_failures := f, auto_disabled := true }
  else
    { s with consecutive_failures := f }

/-- `increment_cpu_job` (src/utils/ffmpeg.rs lines 113-121): bump the CPU job
counter, and the since-last-retry counter while auto-disabled. -/
def increment_cpu_job (s : GpuState) : GpuState :=
  let s1 := { s with jobs_cpu := s.jobs_cpu + 1 }
  if s1.auto_disabled then
    { s1 with cpu_jobs_since_last_retry := s1.cpu_jobs_since_last_retry + 1 }
  else s1

/-- `increment_gpu_job` (src/utils/ffmpeg.rs lines 100-111): a successful GPU
job resets the failure and retry counters and re-enables GPU. -/
def increment_gpu_job (s : GpuState) : GpuState :=
  { s with jobs_gpu := s.jobs_gpu + 1, consecutive_failures := 0,
           cpu_jobs_since_last_retry := 0, auto_disabled := false }

/-- `get_gpu_config` (src/utils/ffmpeg.rs lines 63-87) restricted to the
`enabled` decision: `baseEnabled` is the startup detection result
(`cfg.enabled`).  While auto-disabled (and GPU detected), every 10 CPU jobs
one call is allowed through with GPU enabled, resetting the retry counter;
otherwise the call reports CPU-only. -/
def get_gpu_config (baseEnabled : Bool) (s : GpuState) : Bool × GpuState :=
  if s.auto_disabled ∧ baseEnabled = true then
    if 10 ≤ s.cpu_jobs_since_last_retry then
      (baseEnabled, { s with cpu_jobs_since_last_retry := 0 })
    else
      (false, s)
  else (baseEnabled, s)

/-! ## Query layer (src/db/query.rs `list_assets` / `search_assets`)

SQL `ORDER BY` clauses are modelled as `Ordering`-valued comparators and a
stable merge sort; `GLOB` is implemented (SQLite semantics: `*`, `?`,
`[...]` classes with ranges and `^` negation, no escape character); the
`LIKE '%q%'` tests used for match counts and priority sorting reduce to
case-insensitive containment because the needle is `LIKE`-escaped. -/

def cmpInt (x y : Int) : Ordering :=
  if x < y then .lt else if x = y then .eq else .gt

/-- SQLite TEXT comparison (memcmp of the encoded bytes, here by code point). -/
def cmpChars : List Char → List Char → Ordering
  | [], [] => .eq
  | [], _ :: _ => .lt
  | _ :: _, [] => .gt
  | a :: xs, b :: ys => (cmpInt a.toNat b.toNat).then (cmpChars xs ys)

def notGt (o : Ordering) : Bool :=
  match o with
  | .gt => false
  | _ => true

/-- A `NULLS LAST` comparator over a nullable column: null sorts after every
value regardless of the direction of the inner comparison. -/
def nullsLastCmp (inner : Int → Int → Ordering) (a b : Option Int) : Ordering :=
  match a, b with
  | some x, some y => inner x y
  | some _, none => .lt
  | none, some _ => .gt
  | none, none => .eq

/-- `taken_at DESC NULLS LAST` as a comparator over the nullable column. -/
def takenAtDescNullsLastCmp (a b : Option Int) : Ordering :=
  nullsLastCmp (fun x y => cmpInt y x) a b

/-- `ORDER BY filename ASC, taken_at DESC NULLS LAST, mtime_ns DESC`
(the wildcard-search ordering in `search_assets`). -/
def wildcardOrderCmp : AssetR → AssetR → Ordering :=
  compareLex (fun a b => cmpChars a.filename b.filename)
    (compareLex (fun a b => takenAtDescNullsLastCmp a.taken_at b.taken_at)
      (fun a b => cmpInt b.mtime_ns a.mtime_ns))

/-- `needle` occurs as a contiguous subsequence of the second list. -/
def containsSeq (needle : List Char) : List Char → Bool
  | [] => needle.isEmpty
  | c :: rest => needle.isPrefixOf (c :: rest) || containsSeq needle rest

/-- `LOWER(col) LIKE LOWER('%<escaped q>%') ESCAPE ..`: the needle is escaped,
so this is case-insensitive substring containment. -/
def likeHit (needle hay : List Char) : Bool :=
  containsSeq (toLowerL needle) (toLowerL hay)

/-- The `CASE WHEN .. THEN 1/2/3 ELSE 4` match priority of the text-search
ordering. -/
def textPriority (q : List Char) (a : AssetR) : Int :=
  if likeHit q a.filename then 1
  else if likeHit q a.dirname then 2
  else if likeHit q a.path then 3
  else 4

/-- The text-search ordering: priority ASC, then `taken_at DESC NULLS LAST,
mtime_ns DESC`. -/
def textOrderCmp (q : List Char) : AssetR → AssetR → Ordering :=
  compareLex (fun a b => cmpInt (textPriority q a) (textPriority q b))
    (compareLex (fun a b => takenAtDescNullsLastCmp a.taken_at b.taken_at)
      (fun a b => cmpInt b.mtime_ns a.mtime_ns))

/-- The no-text-no-wildcard fallback ordering:
`taken_at DESC NULLS LAST, mtime_ns DESC`. -/
def plainOrderCmp : AssetR → AssetR → Ordering :=
  compareLex (fun a b => takenAtDescNullsLastCmp a.taken_at b.taken_at)
    (fun a b => cmpInt b.mtime_ns a.mtime_ns)

def bslashChar : Char := Char.ofNat 92
def squoteChar : Char := Char.ofNat 39
def dquoteChar : Char := Char.ofNat 34

/-- Split a GLOB character class `[...]` body from the rest of the pattern at
the closing bracket. -/
def classSplit (ps : List Char) : Option (List Char × List Char) :=
  match ps.dropWhile (fun x => x ≠ ']') with
  | [] => none
  | _ :: rest2 => some (ps.takeWhile (fun x => x ≠ ']'), rest2)

/-- Membership of a character in a class body, with `a-b` ranges. -/
def globSetMatch : List Char → Char → Bool
  | a :: '-' :: b :: rest, c => (a ≤ c && c ≤ b) || globSetMatch rest c
  | a :: rest, c => (a == c) || globSetMatch rest c
  | [], _ => false

/-- A class body matches a character, honouring a leading `^` negation. -/
def charClassMatch (body : List Char) (c : Char) : Bool :=
  match body with
  | '^' :: bs => !globSetMatch bs c
  | _ => globSetMatch body c

/-- One element of a parsed GLOB pattern. -/
inductive GlobTok where
  | star
  | anyOne
  | lit (c : Char)
  | cls (body : List Char)
  | bad
deriving Repr, DecidableEq

/-- Parse a GLOB pattern into tokens; an unterminated class (`bad`) matches
nothing, as in SQLite. -/
def parseGlob : List Char → List GlobTok
  | [] => []
  | '*' :: ps => .star :: parseGlob ps
  | '?' :: ps => .anyOne :: parseGlob ps
  | '[' :: ps =>
    match hsg : classSplit ps with
    | none => [.bad]
    | some (body, rest2) => .cls body :: parseGlob rest2
  | c :: ps => .lit c :: parseGlob ps
termination_by p => p.length
decreasing_by
  all_goals simp_wf
  all_goals first
  | omega
  | (have hlt : rest2.length < ps.length := by
       unfold classSplit at hsg
       cases hd : ps.dropWhile (fun x => x ≠ ']') with
       | nil => rw [hd] at hsg; exact absurd hsg (by simp)
       | cons z zs =>
         rw [hd] at hsg
         have h1 : (z :: zs).length ≤ ps.length := by
           rw [← hd]; exact (List.dropWhile_suffix _).length_le
         simp only [List.length_cons] at h1
         have h2 : zs = rest2 :=
           congrArg (fun q : List Char × List Char => q.2) (Option.some.inj hsg)
         subst h2
         omega
     omega)

/-- Matching of a parsed GLOB pattern against a string. -/
def gmatch : List GlobTok → List Char → Bool
  | [], [] => true
  | [], _ :: _ => false
  | .star :: ps, [] => gmatch ps []
  | .star :: ps, c :: ss => gmatch ps (c :: ss) || gmatch (.star :: ps) ss
  | .anyOne :: _, [] => false
  | .anyOne :: ps, _ :: ss => gmatch ps ss
  | .bad :: _, _ => false
  | .cls _ :: _, [] => false
  | .cls body :: ps, c :: ss => charClassMatch body c && gmatch ps ss
  | .lit _ :: _, [] => false
  | .lit p :: ps, c :: ss => p == c && gmatch ps ss
termination_by p s => (p.length, s.length)
decreasing_by
  all_goals simp_wf
  all_goals first
  | (apply Prod.Lex.left; omega)
  | (apply Prod.Lex.right; omega)

/-- SQLite `GLOB` pattern matching. -/
def globMatch (pattern s : List Char) : Bool := gmatch (parseGlob pattern) s

/-- The filename-GLOB pattern as SQLite receives it: the Rust code lowercases
and "escapes" `\`, `'`, `[`, `]`, then splices the result into a
single-quoted SQL literal, where the doubled quote collapses back to one
(src/db/query.rs lines 260-267). -/
def escapeGlobDelivered (l : List Char) : List Char :=
  l.flatMap (fun c =>
    if c == bslashChar then [bslashChar, bslashChar]
    else if c == '[' then [bslashChar, '[']
    else if c == ']' then [bslashChar, ']']
    else [c])

/-- The WhatsApp filename GLOB (src/db/query.rs line 278). -/
def whatsappGlob : List Char :=
  "[A-Z][A-Z][A-Z]-[0-9][0-9][0-9][0-9][0-9][0-9][0-9][0-9]-WA[0-9][0-9][0-9][0-9].*".toList

/-- The Pixel-camera filename GLOB (src/db/query.rs line 282). -/
def pxlGlob : List Char :=
  "PXL_[0-9][0-9][0-9][0-9][0-9][0-9][0-9][0-9]_[0-9][0-9][0-9][0-9][0-9][0-9][0-9][0-9][0-9].*".toList

/-- The FTS5 escaping of `search_assets` (src/db/query.rs line 222). -/
def escapeFts (l : List Char) : List Char :=
  l.flatMap (fun c =>
    if c == bslashChar then [bslashChar, bslashChar]
    else if c == dquoteChar then [bslashChar, dquoteChar]
    else if c == squoteChar then [squoteChar, squoteChar]
    else [c])

/-- The prefix-FTS query string of `search_assets` (src/db/query.rs lines
219-237): escape, split on whitespace, append `*` to every term that does
not already end in `*` or contain `"` or `:`, re-join with spaces. -/
def buildFtsQuery (text_terms : List Char) : List Char :=
  List.intercalate [' ']
    ((wordsL (escapeFts text_terms)).map (fun w =>
      if (w.getLast? == some '*') || w.contains dquoteChar || w.contains ':' then w
      else w ++ ['*']))

/-- The named parameters of `search_assets` (src/db/query.rs `SearchParams`). -/
structure SearchParamsM where
  q : List Char
  fromTs : Option Int
  toTs : Option Int
  camera_make : Option (List Char)
  camera_model : Option (List Char)
  platform_type : Option (List Char)
  offset : Int
  limit : Int
deriving Repr, DecidableEq

structure SearchMatchCountsM where
  filename : Int
  dirname : Int
  path : Int
deriving Repr, DecidableEq

structure SearchResultM where
  total : Int
  items : List AssetR
  match_counts : Option SearchMatchCountsM
deriving Repr, DecidableEq

structure PagedM where
  total : Int
  items : List AssetR
deriving Repr, DecidableEq

/-- The structured (non-query-string) WHERE clauses of `search_assets`
(src/db/query.rs lines 270-284): capture-time range (`NULL` capture times
fail both bounds, as in SQL three-valued logic), camera make/model equality,
and the canned platform filename GLOBs. -/
def structuredFiltersB (p : SearchParamsM) (a : AssetR) : Bool :=
  (match p.fromTs with
   | none => true
   | some f => match a.taken_at with | none => false | some t => f ≤ t)
  && (match p.toTs with
      | none => true
      | some u => match a.taken_at with | none => false | some t => t ≤ u)
  && (match p.camera_make with | none => true | some m => a.camera_make == some m)
  && (match p.camera_model with | none => true | some m => a.camera_model == some m)
  && (match p.platform_type with
      | none => true
      | some pt =>
        if pt == "whatsapp".toList then globMatch whatsappGlob a.filename
        else if pt == "pxl".toList then globMatch pxlGlob a.filename
        else true)

/-- The wildcard-search comparator as a sort relation. -/
def wildcardLe (a b : AssetR) : Prop := wildcardOrderCmp a b ≠ .gt

instance : DecidableRel wildcardLe := fun a b => by unfold wildcardLe; infer_instance

def textLe (q : List Char) (a b : AssetR) : Prop := textOrderCmp q a b ≠ .gt

instance (q : List Char) : DecidableRel (textLe q) := fun a b => by
  unfold textLe; infer_instance

def plainLe (a b : AssetR) : Prop := plainOrderCmp a b ≠ .gt

instance : DecidableRel plainLe := fun a b => by unfold plainLe; infer_instance

/-- `search_assets` (src/db/query.rs lines 194-400).  `fts` is the external
FTS5 engine: `fts q a` says the FTS index row of `a` matches the query
string `q`.  The query string is trimmed and tokenised; tokens with `*` or
`?` become case-insensitive filename GLOBs (`*.*` imposes no constraint),
the rest form a prefix-FTS expression.  `total` counts all matching rows;
the items page is ordered by the wildcard / text-priority / plain comparator
and cut by LIMIT/OFFSET; match counts are three disjoint LIKE counts for
text queries, or `(total, 0, 0)` for wildcard-only queries. -/
def search_assets (fts : List Char → AssetR → Bool) (table : List AssetR)
    (p : SearchParamsM) : SearchResultM :=
  let query_trimmed := trimL p.q
  let has_wildcards := query_trimmed.contains '*' || query_trimmed.contains '?'
  let tokens := wordsL query_trimmed
  let wildcard_patterns :=
    if has_wildcards then tokens.filter (fun t => t.contains '*' || t.contains '?') else []
  let text_terms :=
    if has_wildcards then
      List.intercalate [' '] (tokens.filter (fun t => !(t.contains '*' || t.contains '?')))
    else query_trimmed
  let use_fts5 := !(trimL text_terms).isEmpty
  let fts_query := if use_fts5 then buildFtsQuery text_terms else []
  let whereP : AssetR → Bool := fun a =>
    (if use_fts5 then fts fts_query a else true)
    && wildcard_patterns.all (fun pat =>
         if pat == "*.*".toList then true
         else globMatch (escapeGlobDelivered (toLowerL pat)) (toLowerL a.filename))
    && structuredFiltersB p a
  let rows := table.filter whereP
  let total : Int := rows.length
  let match_counts : Option SearchMatchCountsM :=
    if use_fts5 then
      some { filename :=
               ((table.filter (fun a => whereP a && likeHit text_terms a.filename)).length : Int),
             dirname :=
               ((table.filter (fun a => whereP a && likeHit text_terms a.dirname
                  && !likeHit text_terms a.filename)).length : Int),
             path :=
               ((table.filter (fun a => whereP a && likeHit text_terms a.path
                  && !likeHit text_terms a.filename
                  && !likeHit text_terms a.dirname)).length : Int) }
    else if !wildcard_patterns.isEmpty then
      some { filename := total, dirname := 0, path := 0 }
    else none
  let sorted :=
    if !wildcard_patterns.isEmpty then rows.insertionSort wildcardLe
    else if use_fts5 then rows.insertionSort (textLe text_terms)
    else rows.insertionSort plainLe
  { total := total,
    items := (sorted.drop p.offset.toNat).take p.limit.toNat,
    match_counts := match_counts }

/-- Spec-side description of a `*.*` search, written from the spec's words:
no filename constraint (only the structured filters apply), results ordered
by filename ascending, then capture time descending with nulls last, then
mtime descending, and the total reported as filename match hits. -/
def searchStarSpec (table : List AssetR) (p : SearchParamsM) : SearchResultM :=
  let rows := table.filter (structuredFiltersB p)
  { total := (rows.length : Int),
    items := ((rows.insertionSort wildcardLe).drop p.offset.toNat).take p.limit.toNat,
    match_counts := some { filename := (rows.length : Int), dirname := 0, path := 0 } }

/-- `ASC` when the order parameter is `"asc"`, `DESC` (the flipped
comparator) otherwise. -/
def dirCmp {α : Type} (ord : List Char) (cmp : α → α → Ordering) : α → α → Ordering :=
  if ord == "asc".toList then cmp else flip cmp

/-- The `ORDER BY` comparator chosen by `list_assets` (src/db/query.rs lines
107-123) for a non-`none` sort field: `taken_at` uses `NULLS LAST`,
`filename`/`size_bytes`/`mtime`/`mtime_ns` use the named column, anything
else falls back to the `mtime_ns` column; the direction comes from `ord`
(`ASC` only for `"asc"`). -/
def sortColumnCmp (sort ord : List Char) (a b : AssetR) : Ordering :=
  if sort == "taken_at".toList then
    nullsLastCmp (dirCmp ord cmpInt) a.taken_at b.taken_at
  else if sort == "filename".toList then
    dirCmp ord cmpChars a.filename b.filename
  else if sort == "size_bytes".toList then
    dirCmp ord cmpInt a.size_bytes b.size_bytes
  else
    dirCmp ord cmpInt a.mtime_ns b.mtime_ns

def sortColumnLe (sort ord : List Char) (a b : AssetR) : Prop :=
  sortColumnCmp sort ord a b ≠ .gt

instance (sort ord : List Char) : DecidableRel (sortColumnLe sort ord) := fun a b => by
  unfold sortColumnLe; infer_instance

def idLe (ord : List Char) (a b : AssetR) : Prop :=
  dirCmp ord cmpInt a.id b.id ≠ .gt

instance (ord : List Char) : DecidableRel (idLe ord) := fun a b => by
  unfold idLe; infer_instance

/-- `list_assets` (src/db/query.rs lines 95-128): count, then page ordered by
the requested sort.  `sort == "none"` orders by id; otherwise the column
comparator above applies (note `"mtime"` and `"mtime_ns"` and every unknown
value all map to the `mtime_ns` column). -/
def list_assets (table : List AssetR) (offset limit : Int) (sort ord : List Char) : PagedM :=
  let total : Int := table.length
  if sort == "none".toList then
    { total := total,
      items := ((table.insertionSort (idLe ord)).drop offset.toNat).take limit.toNat }
  else
    { total := total,
      items := ((table.insertionSort (sortColumnLe sort ord)).drop offset.toNat).take limit.toNat }

/-! ## Concrete fixtures used by witnesses and counterexamples -/

/-- A catalog row for an already-hashed image whose metadata is incomplete. -/
def rowW : AssetR :=
  { id := 1, path := "/a/x.jpg".toList, dirname := "/a".toList,
    filename := "x.jpg".toList, ext := "jpg".toList, size_bytes := 9,
    mtime_ns := 5, ctime_ns := 0, sha256 := some [1, 2], xxh64 := some 7,
    taken_at := none, width := none, height := none, duration_ms := none,
    camera_make := none, camera_model := none, mime := "image/jpeg".toList }

def tblW : List AssetR := [rowW]

/-- The discover item for the same file, unchanged on disk. -/
def itW : DiscoverItem :=
  { path := "/a/x.jpg".toList, size_bytes := 9, mtime_ns := 5, ctime_ns := 0,
    dirname := "/a".toList, filename := "x.jpg".toList, ext := "jpg".toList,
    mime := "image/jpeg".toList }

/-- An empty catalog for the writer model (SQLite rowids start at 1). -/
def cat0 : Catalog := { rows := [], nextId := 1 }

/-- One write item, as produced by the metadata stage for a small image. -/
def dbItemW : DbWriteItem :=
  { path := "/a/x.jpg".toList, dirname := "/a".toList, filename := "x.jpg".toList,
    ext := "jpg".toList, size_bytes := 9, mtime_ns := 5, ctime_ns := 0,
    sha256 := some [1, 2], xxh64 := some 7, taken_at := some 0, width := some 4,
    height := some 3, duration_ms := none, camera_make := none, camera_model := none,
    lens_model := none, iso := none, fnumber := none, exposure := none,
    video_codec := none, mime := "image/jpeg".toList, flags := 0 }

/-- The simplest lawful streaming hasher: state is the bytes fed so far. -/
def listHasher : StreamHasher (List Nat) := { init := [], upd := fun s c => s ++ c }

/-- Two assets that differ in modification time, for the sort-order
counterexample (`a1W` older, `a2W` newer). -/
def a1W : AssetR :=
  { id := 1, path := "/a/a.jpg".toList, dirname := "/a".toList,
    filename := "a.jpg".toList, ext := "jpg".toList, size_bytes := 1,
    mtime_ns := 10, ctime_ns := 0, sha256 := none, xxh64 := none,
    taken_at := none, width := none, height := none, duration_ms := none,
    camera_make := none, camera_model := none, mime := "image/jpeg".toList }

def a2W : AssetR :=
  { id := 2, path := "/a/b.jpg".toList, dirname := "/a".toList,
    filename := "b.jpg".toList, ext := "jpg".toList, size_bytes := 1,
    mtime_ns := 20, ctime_ns := 0, sha256 := none, xxh64 := none,
    taken_at := some 3, width := none, height := none, duration_ms := none,
    camera_make := none, camera_model := none, mime := "image/jpeg".toList }

def tbl2W : List AssetR := [a1W, a2W]

/-- Search parameters for the `*.*` witness: the wildcard query with no other
filters. -/
def starParamsW : SearchParamsM :=
  { q := "*.*".toList, fromTs := none, toTs := none, camera_make := none,
    camera_model := none, platform_type := none, offset := 0, limit := 10 }

/-- A GPU-breaker state that is auto-disabled with a full retry window. -/
def gpuDisabledW : GpuState :=
  { jobs_gpu := 0, jobs_cpu := 30, consecutive_failures := 3,
    auto_disabled := true, cpu_jobs_since_last_retry := 10 }

/-- A hash job used by witnesses. -/
def hashJobW : HashJob := hashJobOfItem itW

/-! ## Comparator laws

The `ORDER BY` comparators are oriented and transitive, which is what the
sortedness statements below need. -/

open Batteries

theorem ocSymm {α : Sort _} (cmp : α → α → Ordering) [OrientedCmp cmp] (x y : α) :
    (cmp x y).swap = cmp y x := OrientedCmp.symm x y

theorem ocEqGt {α : Sort _} (cmp : α → α → Ordering) [OrientedCmp cmp] {x y : α} :
    cmp x y = .gt ↔ cmp y x = .lt := OrientedCmp.cmp_eq_gt

theorem tcLeTrans {α : Sort _} (cmp : α → α → Ordering) [TransCmp cmp] {x y z : α}
    (h1 : cmp x y ≠ .gt) (h2 : cmp y z ≠ .gt) : cmp x z ≠ .gt :=
  TransCmp.le_trans h1 h2

theorem tcCongrLeft {α : Sort _} (cmp : α → α → Ordering) [TransCmp cmp] {x y z : α}
    (xy : cmp x y = .eq) : cmp x z = cmp y z :=
  TransCmp.cmp_congr_left xy

instance : TransCmp cmpInt where
  symm x y := by
    unfold cmpInt
    split_ifs <;> first | rfl | (exfalso; omega)
  le_trans {x y z} h1 h2 := by
    unfold cmpInt at h1 h2 ⊢
    split_ifs at h1 h2 ⊢ <;>
      first | exact absurd rfl h1 | exact absurd rfl h2 | trivial | omega

theorem cmpChars_swap : ∀ x y, (cmpChars x y).swap = cmpChars y x
  | [], [] => rfl
  | [], _ :: _ => rfl
  | _ :: _, [] => rfl
  | a :: xs, b :: ys => by
    simp only [cmpChars, Ordering.swap_then]
    rw [cmpChars_swap xs ys, ocSymm cmpInt]

instance : OrientedCmp cmpChars := ⟨cmpChars_swap⟩

theorem cmpChars_le_trans :
    ∀ {x y z}, cmpChars x y ≠ .gt → cmpChars y z ≠ .gt → cmpChars x z ≠ .gt
  | [], _, [], _, _ => by simp [cmpChars]
  | [], _, _ :: _, _, _ => by simp [cmpChars]
  | _ :: _, [], _, h1, _ => by simp [cmpChars] at h1
  | _ :: _, _ :: _, [], _, h2 => by simp [cmpChars] at h2
  | a :: xs, b :: ys, c :: zs, h1, h2 => by
    simp only [cmpChars, ne_eq, Ordering.then_eq_gt, not_or, not_and] at h1 h2 ⊢
    refine ⟨tcLeTrans cmpInt h1.1 h2.1, fun e1 e2 => ?_⟩
    match ab : cmpInt a.toNat b.toNat with
    | .gt => exact h1.1 ab
    | .eq =>
      exact cmpChars_le_trans (h1.2 ab)
        (h2.2 (tcCongrLeft cmpInt ab ▸ e1)) e2
    | .lt =>
      exact h2.1 <| (ocEqGt cmpInt).2
        (tcCongrLeft cmpInt e1 ▸ ab)

instance : TransCmp cmpChars := ⟨cmpChars_le_trans⟩

instance {inner : Int → Int → Ordering} [TransCmp inner] : TransCmp (nullsLastCmp inner) where
  symm x y := by
    cases x <;> cases y <;> simp [nullsLastCmp, Ordering.swap]
    exact ocSymm inner _ _
  le_trans {x y z} h1 h2 := by
    cases x <;> cases y <;> cases z <;>
      simp_all only [nullsLastCmp, ne_eq] <;>
      first
      | trivial
      | exact tcLeTrans inner h1 h2

instance : TransCmp (fun x y : Int => cmpInt y x) where
  symm x y := ocSymm cmpInt y x
  le_trans h1 h2 := tcLeTrans cmpInt h2 h1

instance : TransCmp takenAtDescNullsLastCmp :=
  inferInstanceAs (TransCmp (nullsLastCmp (fun x y => cmpInt y x)))

instance {α : Type} (ord : List Char) (cmp : α → α → Ordering) [TransCmp cmp] :
    TransCmp (dirCmp ord cmp) := by
  unfold dirCmp
  by_cases h : (ord == "asc".toList) = true
  · rw [if_pos h]; infer_instance
  · rw [if_neg h]; infer_instance

instance : TransCmp (fun a b : AssetR => cmpChars a.filename b.filename) where
  symm x y := ocSymm cmpChars x.filename y.filename
  le_trans h1 h2 := tcLeTrans cmpChars h1 h2

instance : TransCmp (fun a b : AssetR => takenAtDescNullsLastCmp a.taken_at b.taken_at) where
  symm x y := ocSymm takenAtDescNullsLastCmp x.taken_at y.taken_at
  le_trans h1 h2 := tcLeTrans takenAtDescNullsLastCmp h1 h2

instance : TransCmp (fun a b : AssetR => cmpInt b.mtime_ns a.mtime_ns) where
  symm x y := ocSymm cmpInt y.mtime_ns x.mtime_ns
  le_trans h1 h2 := tcLeTrans cmpInt h2 h1

instance (q : List Char) :
    TransCmp (fun a b : AssetR => cmpInt (textPriority q a) (textPriority q b)) where
  symm x y := ocSymm cmpInt (textPriority q x) (textPriority q y)
  le_trans h1 h2 := tcLeTrans cmpInt h1 h2

instance : TransCmp wildcardOrderCmp :=
  inferInstanceAs (TransCmp (compareLex _ (compareLex _ _)))

instance (q : List Char) : TransCmp (textOrderCmp q) :=
  inferInstanceAs (TransCmp (compareLex _ (compareLex _ _)))

instance : TransCmp plainOrderCmp :=
  inferInstanceAs (TransCmp (compareLex _ _))

theorem notGt_total {α : Sort _} (cmp : α → α → Ordering) [OrientedCmp cmp] (a b : α) :
    cmp a b ≠ .gt ∨ cmp b a ≠ .gt := by
  rcases h : cmp a b with _ | _ | _
  · exact Or.inl (by simp [h])
  · exact Or.inl (by simp [h])
  · right
    have := (ocEqGt cmp).mp h
    simp [this]

instance : IsTrans AssetR wildcardLe :=
  ⟨fun _ _ _ h1 h2 => tcLeTrans wildcardOrderCmp h1 h2⟩

instance : IsTotal AssetR wildcardLe := ⟨fun a b => notGt_total wildcardOrderCmp a b⟩

instance (sort ord : List Char) : TransCmp (sortColumnCmp sort ord) where
  symm x y := by
    unfold sortColumnCmp
    split_ifs
    · exact ocSymm (nullsLastCmp (dirCmp ord cmpInt)) _ _
    · exact ocSymm (dirCmp ord cmpChars) _ _
    · exact ocSymm (dirCmp ord cmpInt) _ _
    · exact ocSymm (dirCmp ord cmpInt) _ _
  le_trans {x y z} h1 h2 := by
    unfold sortColumnCmp at h1 h2 ⊢
    split_ifs at h1 h2 ⊢
    · exact tcLeTrans (nullsLastCmp (dirCmp ord cmpInt)) h1 h2
    · exact tcLeTrans (dirCmp ord cmpChars) h1 h2
    · exact tcLeTrans (dirCmp ord cmpInt) h1 h2
    · exact tcLeTrans (dirCmp ord cmpInt) h1 h2

instance (sort ord : List Char) : IsTrans AssetR (sortColumnLe sort ord) :=
  ⟨fun _ _ _ h1 h2 => tcLeTrans (sortColumnCmp sort ord) h1 h2⟩

instance (sort ord : List Char) : IsTotal AssetR (sortColumnLe sort ord) :=
  ⟨fun a b => notGt_total (sortColumnCmp sort ord) a b⟩

/-! ## Claim theorems -/

/-- C1: for every discovered image/video item, the skip-gate forwarder looks
up the catalog by `(path, mtime_ns, size_bytes)` and takes exactly one of
four actions: no matching row forwards a hash job; a row with SHA-256 and
complete metadata skips entirely; a row with SHA-256 but incomplete metadata
bypasses hashing and forwards a metadata job carrying the stored xxh3 and
SHA-256; a row without SHA-256 forwards to hashing anyway. -/
theorem forwarder_skip_gate_cases (table : List AssetR) (it : DiscoverItem)
    (hmedia : startsWithL it.mime imageSlash = true ∨ startsWithL it.mime videoSlash = true) :
    (check_file_unchanged table it.path it.mtime_ns it.size_bytes = none →
      forwarder_action table it = .toHash (hashJobOfItem it))
    ∧ (∀ id x s,
        check_file_unchanged table it.path it.mtime_ns it.size_bytes = some (id, x, some s) →
        check_metadata_complete table id it.mime = true →
        forwarder_action table it = .skipEntirely)
    ∧ (∀ id x s,
        check_file_unchanged table it.path it.mtime_ns it.size_bytes = some (id, x, some s) →
        check_metadata_complete table id it.mime = false →
        forwarder_action table it =
          .toMetadata { job := hashJobOfItem it, xxh64 := x, sha256 := some s })
    ∧ (∀ id x,
        check_file_unchanged table it.path it.mtime_ns it.size_bytes = some (id, x, none) →
        forwarder_action table it = .toHash (hashJobOfItem it)) := by
  have hcond : (!(startsWithL it.mime imageSlash) && !(startsWithL it.mime videoSlash)) = false := by
    rcases hmedia with h | h <;> simp [h]
  refine ⟨?_, ?_, ?_, ?_⟩
  · intro h0
    simp [forwarder_action, hcond, h0]
  · intro id x s hsome hcomp
    simp [forwarder_action, hcond, hsome, hcomp]
  · intro id x s hsome hcomp
    simp [forwarder_action, hcond, hsome, hcomp]
  · intro id x hsome
    simp [forwarder_action, hcond, hsome]

/-- Witness for C1: the fixture catalog holds the unchanged image with a
stored SHA-256 but no width/height, so the forwarder bypasses hashing and
sends a metadata job carrying the stored digests. -/
theorem forwarder_skip_gate_cases_witness :
    forwarder_action tblW itW =
      .toMetadata { job := hashJobOfItem itW, xxh64 := some 7, sha256 := some [1, 2] } :=
  (forwarder_skip_gate_cases tblW itW (Or.inl (by decide))).2.2.1 1 (some 7) [1, 2]
    (by decide) (by decide)

theorem upsertAll_snd_map (c : Catalog) (buf : List DbWriteItem) :
    (upsertAll c buf).2.map Prod.snd = buf := by
  induction buf generalizing c with
  | nil => rfl
  | cons it rest ih => simp [upsertAll, ih]

/-- C2 counterexample: a one-item batch commits its asset upsert and its FTS
insert in two separate transactions, so the "same transaction / one
transaction per batch" invariant evaluates to false on the code's trace. -/
theorem commit_batch_not_same_transaction :
    sameTransactionClaim (commit_batch cat0 [dbItemW]).2 = false := by decide

/-- C2 (amended): each writer batch commits all asset upserts in one
transaction, and then inserts the corresponding FTS rows — exactly one per
upserted row, with `rowid` equal to the asset id, in the same order — in a
second transaction committed immediately after; so every upsert gets its
matching FTS row in the same batch, not in the same transaction. -/
theorem commit_batch_fts_second_transaction (c : Catalog) (buf : List DbWriteItem)
    (hne : buf ≠ []) :
    (commit_batch c buf).2 =
      [(upsertAll c buf).2.map (fun p => SqlOp.upsertAsset p.1 p.2),
       (upsertAll c buf).2.map (fun p => matchingFts p.1 p.2)]
    ∧ (upsertAll c buf).2.map Prod.snd = buf := by
  refine ⟨?_, upsertAll_snd_map c buf⟩
  have hlen : (upsertAll c buf).2.length = buf.length := by
    have := congrArg List.length (upsertAll_snd_map c buf)
    simpa using this
  have hiseq : (upsertAll c buf).2.isEmpty = false := by
    cases h : (upsertAll c buf).2 with
    | nil =>
      exfalso
      apply hne
      rw [h] at hlen
      exact List.length_eq_zero.mp hlen.symm
    | cons _ _ => rfl
  simp [commit_batch, hiseq, matchingFts]

/-- Witness for C2 (amended): evaluating a concrete one-item batch. -/
theorem commit_batch_fts_second_transaction_witness :
    ([dbItemW] : List DbWriteItem) ≠ [] ∧
    ((commit_batch cat0 [dbItemW]).2 =
      [(upsertAll cat0 [dbItemW]).2.map (fun p => SqlOp.upsertAsset p.1 p.2),
       (upsertAll cat0 [dbItemW]).2.map (fun p => matchingFts p.1 p.2)]
     ∧ (upsertAll cat0 [dbItemW]).2.map Prod.snd = [dbItemW]) :=
  ⟨by decide, commit_batch_fts_second_transaction cat0 [dbItemW] (by decide)⟩

theorem parseU64_isEmpty_false {l : List Char} {v : Nat} (h : parseU64 l = some v) :
    l.isEmpty = false := by
  cases l with
  | nil => exact Option.noConfusion h
  | cons a rest => rfl

theorem stripPlus_cases (l : List Char) :
    stripPlus l = l ∨ ∃ rest, l = '+' :: rest ∧ stripPlus l = rest := by
  cases l with
  | nil => exact Or.inl rfl
  | cons a rest =>
    by_cases hp : a = '+'
    · subst hp
      exact Or.inr ⟨rest, rfl, rfl⟩
    · left
      unfold stripPlus
      split
      · rename_i heq
        exact absurd (List.cons.injEq .. ▸ congrArg id heq).1 hp
      · rfl

theorem parseU64_digits {l : List Char} {v : Nat} (h : parseU64 l = some v) :
    (stripPlus l).all Char.isDigit = true := by
  unfold parseU64 at h
  by_cases h1 : (stripPlus l).isEmpty
  · simp [h1] at h
  · by_cases h2 : (stripPlus l).all Char.isDigit
    · exact h2
    · simp [h1, h2] at h

theorem parseU64_no_dash {l : List Char} {v : Nat} (h : parseU64 l = some v) :
    ∀ c ∈ l, c ≠ '-' := by
  intro c hc hcd
  subst hcd
  have hd := parseU64_digits h
  rcases stripPlus_cases l with hsp | ⟨rest, rfl, hsp⟩
  · rw [hsp] at hd
    exact absurd (List.all_eq_true.mp hd _ hc) (by decide)
  · rw [hsp] at hd
    rcases List.mem_cons.mp hc with h0 | hmem
    · exact absurd h0 (by decide)
    · exact absurd (List.all_eq_true.mp hd _ hmem) (by decide)

theorem splitOnceChar_append_sep (sep : Char) (l rest : List Char)
    (hl : ∀ c ∈ l, c ≠ sep) :
    splitOnceChar sep (l ++ sep :: rest) = some (l, rest) := by
  induction l with
  | nil => simp [splitOnceChar]
  | cons a as ih =>
    have ha : (a == sep) = false := by
      simpa using hl a (List.mem_cons_self ..)
    simp [splitOnceChar, ha, ih (fun c hc => hl c (List.mem_cons_of_mem _ hc))]

theorem startsWithL_append (pre rest : List Char) :
    startsWithL (pre ++ rest) pre = true := by
  induction pre with
  | nil => cases rest <;> rfl
  | cons c cs ih => simp [startsWithL, ih]

theorem parse_range_valid {rs : List Char} {N s e : Nat}
    (h : parse_range rs N = some (s, e)) : s ≤ e ∧ e < N := by
  unfold parse_range at h
  by_cases h0 : startsWithL rs ("bytes=".toList) = true
  · rw [if_pos h0] at h
    rcases hsp : splitOnceChar '-' (rs.drop 6) with _ | ⟨a, b⟩ <;> rw [hsp] at h <;>
      dsimp only at h
    · simp at h
    · rcases hs0 : (if a.isEmpty then some 0 else parseU64 a) with _ | s0 <;> rw [hs0] at h
      · simp at h
      · rcases he0 : (if b.isEmpty then some ((N + (2 ^ 64 - 1)) % 2 ^ 64)
                     else parseU64 b) with _ | e0 <;> rw [he0] at h <;> dsimp only at h
        · simp at h
        · by_cases hc : s0 ≤ e0 ∧ e0 < N
          · rw [if_pos hc] at h
            obtain ⟨rfl, rfl⟩ : s0 = s ∧ e0 = e := by
              have := Option.some.inj h
              exact ⟨congrArg Prod.fst this, congrArg Prod.snd this⟩
            exact hc
          · rw [if_neg hc] at h
            simp at h
  · rw [if_neg h0] at h
    simp at h

/-- C3: ranged video streaming.  For a header that parses to a valid range
`(s, e)` the response is 206 with exactly `e - s + 1` bytes read from offset
`s`, `Content-Range: bytes s-e/N`, matching `Content-Length`,
`Accept-Ranges: bytes` and `Access-Control-Allow-Origin: *`; every parsed
range is valid (`s ≤ e`, `e < N`), and any other header — start greater than
end, end at least the file size, or unparsable — produces the 200
whole-file response.  An empty start parses as 0 and an empty end as
`N - 1`; `bytes=0-0` returns exactly one byte with 206. -/
theorem serve_video_range_contract (file : List Nat) (mime : List Char) :
    (∀ rs s e, parse_range rs file.length = some (s, e) →
        s ≤ e ∧ e < file.length ∧
        serve_video_file file mime (some rs) =
          { status := 206, body := (file.drop s).take (e - s + 1), contentType := mime,
            contentLength := e - s + 1, contentRange := some (s, e, file.length),
            acceptRangesBytes := true, corsAllowAll := true } ∧
        ((file.drop s).take (e - s + 1)).length = e - s + 1)
    ∧ (∀ rs, parse_range rs file.length = none →
        serve_video_file file mime (some rs) = fullFileResponse file mime)
    ∧ (∀ endStr e, parseU64 endStr = some e →
        parse_range ("bytes=-".toList ++ endStr) file.length =
          if e < file.length then some (0, e) else none)
    ∧ (∀ startStr s, parseU64 startStr = some s → 1 ≤ file.length →
        file.length < 2 ^ 64 →
        parse_range ("bytes=".toList ++ startStr ++ ['-']) file.length =
          if s ≤ file.length - 1 then some (s, file.length - 1) else none)
    ∧ (1 ≤ file.length → file.length < 2 ^ 64 →
        parse_range ("bytes=-".toList) file.length = some (0, file.length - 1))
    ∧ (1 ≤ file.length →
        serve_video_file file mime (some ("bytes=0-0".toList)) =
          { status := 206, body := file.take 1, contentType := mime, contentLength := 1,
            contentRange := some (0, 0, file.length), acceptRangesBytes := true,
            corsAllowAll := true } ∧ (file.take 1).length = 1) := by
  have hparse206 : ∀ rs s e, parse_range rs file.length = some (s, e) →
      serve_video_file file mime (some rs) =
        { status := 206, body := (file.drop s).take (e - s + 1), contentType := mime,
          contentLength := e - s + 1, contentRange := some (s, e, file.length),
          acceptRangesBytes := true, corsAllowAll := true } := by
    intro rs s e h
    simp [serve_video_file, h]
  refine ⟨?_, ?_, ?_, ?_, ?_, ?_⟩
  · intro rs s e h
    obtain ⟨hse, heN⟩ := parse_range_valid h
    refine ⟨hse, heN, hparse206 rs s e h, ?_⟩
    rw [List.length_take, List.length_drop]
    omega
  · intro rs h
    simp [serve_video_file, h]
  · intro endStr e hp
    have hne : endStr.isEmpty = false := parseU64_isEmpty_false hp
    have hrs : "bytes=-".toList ++ endStr =
        'b' :: 'y' :: 't' :: 'e' :: 's' :: '=' :: '-' :: endStr := rfl
    rw [hrs]
    unfold parse_range
    rw [show startsWithL ('b' :: 'y' :: 't' :: 'e' :: 's' :: '=' :: '-' :: endStr)
          ("bytes=".toList) = true from by simp [startsWithL]]
    rw [if_pos rfl]
    rw [show (('b' :: 'y' :: 't' :: 'e' :: 's' :: '=' :: '-' :: endStr).drop 6) =
          '-' :: endStr from rfl]
    rw [show splitOnceChar '-' ('-' :: endStr) = some ([], endStr) from rfl]
    simp [hne, hp]
  · intro startStr s hp h1 h2
    have hne : startStr.isEmpty = false := parseU64_isEmpty_false hp
    have hrs : "bytes=".toList ++ startStr ++ ['-'] =
        "bytes=".toList ++ (startStr ++ '-' :: []) := by simp
    rw [hrs]
    unfold parse_range
    rw [show startsWithL ("bytes=".toList ++ (startStr ++ '-' :: [])) ("bytes=".toList) =
          true from startsWithL_append ..]
    rw [if_pos rfl]
    rw [show (("bytes=".toList ++ (startStr ++ '-' :: [])).drop 6) =
          startStr ++ '-' :: [] from by
        have hd := List.drop_left ("bytes=".toList) (startStr ++ '-' :: [])
        simp only [show ("bytes=".toList).length = 6 from rfl] at hd
        exact hd]
    rw [splitOnceChar_append_sep '-' startStr [] (parseU64_no_dash hp)]
    have hwrap : (file.length + (2 ^ 64 - 1)) % 2 ^ 64 = file.length - 1 := by omega
    simp only [hne, List.isEmpty_nil, Bool.false_eq_true, if_false, if_true, hp, hwrap]
    by_cases hcond : s ≤ file.length - 1
    · rw [if_pos ⟨hcond, by omega⟩, if_pos hcond]
    · rw [if_neg (fun hcc => hcond hcc.1), if_neg hcond]
  · intro h1 h2
    have hwrap : (file.length + (2 ^ 64 - 1)) % 2 ^ 64 = file.length - 1 := by omega
    unfold parse_range
    rw [show startsWithL ("bytes=-".toList) ("bytes=".toList) = true from rfl]
    rw [if_pos rfl]
    rw [show (("bytes=-".toList).drop 6) = ['-'] from rfl]
    rw [show splitOnceChar '-' ['-'] = some ([], []) from rfl]
    simp only [List.isEmpty_nil, if_true, hwrap]
    rw [if_pos ⟨Nat.zero_le _, by omega⟩]
  · intro h1
    have hp00 : parse_range ("bytes=0-0".toList) file.length = some (0, 0) := by
      unfold parse_range
      rw [show startsWithL ("bytes=0-0".toList) ("bytes=".toList) = true from rfl]
      rw [if_pos rfl]
      rw [show (("bytes=0-0".toList).drop 6) = ['0', '-', '0'] from rfl]
      rw [show splitOnceChar '-' ['0', '-', '0'] = some (['0'], ['0']) from rfl]
      dsimp only
      rw [show (if (['0'] : List Char).isEmpty = true then some 0 else parseU64 ['0']) =
            some 0 from rfl]
      dsimp only
      rw [show (if (['0'] : List Char).isEmpty = true
              then some ((file.length + (2 ^ 64 - 1)) % 2 ^ 64)
              else parseU64 ['0']) = some 0 from rfl]
      dsimp only
      rw [if_pos ⟨Nat.le_refl 0, h1⟩]
    refine ⟨?_, ?_⟩
    · have h206 := hparse206 _ 0 0 hp00
      simpa using h206
    · rw [List.length_take]
      omega

theorem foldl_upd_flatten {σ : Type} (H : StreamHasher σ) (happ : updAppendLaw H)
    (hnil : updNilLaw H) :
    ∀ (reads : List (List Nat)) (s : σ), reads.foldl H.upd s = H.upd s reads.flatten := by
  intro reads
  induction reads with
  | nil => intro s; simp [hnil s]
  | cons c cs ih =>
    intro s
    simp only [List.foldl_cons, List.flatten_cons, happ s c cs.flatten]
    exact ih (H.upd s c)

theorem chunksAux_flatten (k : Nat) (hk : 0 < k) :
    ∀ (fuel : Nat) (l : List Nat), l.length < fuel → (chunksAux k fuel l).flatten = l := by
  intro fuel
  induction fuel with
  | zero => intro l hl; omega
  | succ n ih =>
    intro l hl
    cases l with
    | nil => rfl
    | cons c cs =>
      have hlen : ((c :: cs).drop k).length < n := by
        simp only [List.length_drop, List.length_cons]
        simp only [List.length_cons] at hl
        omega
      simp only [chunksAux, List.flatten_cons]
      rw [ih ((c :: cs).drop k) hlen]
      exact List.take_append_drop k (c :: cs)

theorem chunksOf_flatten (k : Nat) (hk : 0 < k) (l : List Nat) :
    (chunksOf k l).flatten = l :=
  chunksAux_flatten k hk (l.length + 1) l (Nat.lt_succ_self _)

theorem mmapDigestState_eq {σ : Type} (H : StreamHasher σ) (happ : updAppendLaw H)
    (hnil : updNilLaw H) (content : List Nat) :
    mmapDigestState H content = H.upd H.init content := by
  unfold mmapDigestState
  rw [foldl_upd_flatten H happ hnil, chunksOf_flatten _ (by norm_num)]

/-- C4: for every file the hash worker processes successfully, the xxh3-64
digest is computed over the full content (whichever I/O strategy the size
selects), and the result carries a SHA-256 digest iff the MIME begins with
`video/` or the size in bytes is strictly under 64 MiB. -/
theorem hash_file_sha_condition {σx σs : Type} (X : StreamHasher σx) (finX : σx → Int)
    (S : StreamHasher σs) (finS : σs → List Nat)
    (hXapp : updAppendLaw X) (hXnil : updNilLaw X)
    (content : List Nat) (mime : List Char) :
    ((hash_file X finX S finS content mime).2.isSome = true ↔
      startsWithL mime videoSlash = true ∨ (content.length : Int) < 64 * 1024 * 1024)
    ∧ (hash_file X finX S finS content mime).1 = finX (X.upd X.init content) := by
  constructor
  · unfold hash_file
    dsimp only
    cases hb : startsWithL mime videoSlash <;>
      by_cases hlt : (content.length : Int) < 64 * 1024 * 1024 <;>
      split <;> simp [hlt]
  · unfold hash_file
    dsimp only
    split
    · rw [mmapDigestState_eq X hXapp hXnil]
    · unfold bufferedDigestState
      rw [foldl_upd_flatten X hXapp hXnil, chunksOf_flatten _ (by norm_num)]

/-- Witness for C4: the trivial concatenating hasher on a 2-byte video file;
SHA-256 is present (video) and the xxh3 state is the full content. -/
theorem hash_file_sha_condition_witness :
    ((hash_file listHasher (fun s => (s.length : Int)) listHasher id [5, 6]
        ("video/mp4".toList)).2.isSome = true ↔
      startsWithL ("video/mp4".toList) videoSlash = true ∨
        ((([5, 6] : List Nat).length : Int) < 64 * 1024 * 1024))
    ∧ (hash_file listHasher (fun s => (s.length : Int)) listHasher id [5, 6]
        ("video/mp4".toList)).1 =
        (fun s : List Nat => (s.length : Int)) (listHasher.upd listHasher.init [5, 6]) :=
  hash_file_sha_condition listHasher (fun s => (s.length : Int)) listHasher id
    (fun s a b => (List.append_assoc s a b).symm) (fun s => List.append_nil s)
    [5, 6] ("video/mp4".toList)

/-- C10: the memory-mapped strategy (4 MiB chunks of the mapped content) and
the buffered-reader strategy (any sequence of reads whose concatenation is
the content) drive a streaming digest to the same state: the two I/O paths
of `hash_file` are input-output equivalent as pure functions of the bytes
read, for any digest satisfying the streaming-hasher laws (both xxh3 and
SHA-256 do). -/
theorem hash_file_strategy_equivalence {σ : Type} (D : StreamHasher σ)
    (happ : updAppendLaw D) (hnil : updNilLaw D)
    (content : List Nat) (reads : List (List Nat)) (hreads : reads.flatten = content) :
    bufferedDigestState D reads = mmapDigestState D content ∧
    mmapDigestState D content = D.upd D.init content := by
  have hm := mmapDigestState_eq D happ hnil content
  refine ⟨?_, hm⟩
  unfold bufferedDigestState
  rw [foldl_upd_flatten D happ hnil, hreads, hm]

/-- Witness for C10: the concatenating hasher, a 3-byte content and a split
read sequence. -/
theorem hash_file_strategy_equivalence_witness :
    bufferedDigestState listHasher [[1], [2, 3]] = mmapDigestState listHasher [1, 2, 3] ∧
    mmapDigestState listHasher [1, 2, 3] = listHasher.upd listHasher.init [1, 2, 3] :=
  hash_file_strategy_equivalence listHasher
    (fun s a b => (List.append_assoc s a b).symm) (fun s => List.append_nil s)
    [1, 2, 3] [[1], [2, 3]] (by decide)

/-- Blocking sends keep the gauge equal to the queue length. -/
theorem sendAndCount_accurate {J : Type} (q : GaugedQueue J) (j : J)
    (hacc : gaugeAccurate q) (hcap : q.items.length + 1 < 2 ^ 64) :
    gaugeAccurate (sendAndCount q j) := by
  unfold gaugeAccurate sendAndCount at *
  simp only [List.length_append, List.length_cons, List.length_nil]
  omega

/-- Receives keep the gauge equal to the queue length. -/
theorem recvAndCount_accurate {J : Type} (q : GaugedQueue J) (j : J) (q2 : GaugedQueue J)
    (hacc : gaugeAccurate q) (hcap : q.items.length < 2 ^ 64)
    (hrecv : recvAndCount q = some (j, q2)) : gaugeAccurate q2 := by
  unfold gaugeAccurate at *
  unfold recvAndCount at hrecv
  cases hq : q.items with
  | nil => rw [hq] at hrecv; exact Option.noConfusion hrecv
  | cons x rest =>
    rw [hq] at hrecv
    have h2 : ({ items := rest, gauge := (q.gauge + (2 ^ 64 - 1)) % 2 ^ 64 } : GaugedQueue J) = q2 :=
      congrArg Prod.snd (Option.some.inj hrecv)
    rw [← h2]
    rw [hq] at hacc hcap
    simp only [List.length_cons] at hacc hcap ⊢
    omega

/-- C5 (failing case): the thumbnail enqueue in `commit_batch` increments the
thumb gauge even when the full channel drops the job.  With a full channel
of capacity 1 holding one job and an accurate gauge, the enqueue leaves one
in-flight item but a gauge of 2, so the gauge no longer equals the number of
in-flight items. -/
theorem thumb_gauge_overcount :
    gaugeAccurate ({ items := [0], gauge := 1 } : GaugedQueue Nat)
    ∧ (thumbTrySendAndCount 1 ({ items := [0], gauge := 1 } : GaugedQueue Nat) 1).items.length = 1
    ∧ (thumbTrySendAndCount 1 ({ items := [0], gauge := 1 } : GaugedQueue Nat) 1).gauge = 2
    ∧ ¬ gaugeAccurate (thumbTrySendAndCount 1 ({ items := [0], gauge := 1 } : GaugedQueue Nat) 1) := by
  refine ⟨rfl, rfl, ?_, ?_⟩
  · unfold thumbTrySendAndCount
    norm_num
  · unfold gaugeAccurate thumbTrySendAndCount
    norm_num

/-- C6: the GPU breaker auto-disables exactly upon the third consecutive
failure; while auto-disabled (with GPU detected at startup), a call to
`get_gpu_config` permits a GPU retry iff at least 10 CPU jobs have run since
the last retry, resetting the counter when it does, and 10 CPU jobs advance
the counter by 10; a single successful GPU job re-enables GPU and resets the
consecutive-failure counter to zero. -/
theorem gpu_breaker_behavior :
    (∀ n : Nat,
      (record_gpu_failure^[n] gpuInit).consecutive_failures = n ∧
      (record_gpu_failure^[n] gpuInit).auto_disabled = decide (3 ≤ n))
    ∧ (∀ s : GpuState, s.auto_disabled = true →
        (get_gpu_config true s).1 = decide (10 ≤ s.cpu_jobs_since_last_retry)
        ∧ (10 ≤ s.cpu_jobs_since_last_retry →
            (get_gpu_config true s).2.cpu_jobs_since_last_retry = 0)
        ∧ (increment_cpu_job^[10] s).cpu_jobs_since_last_retry =
            s.cpu_jobs_since_last_retry + 10
        ∧ (increment_cpu_job^[10] s).auto_disabled = true)
    ∧ (∀ s : GpuState,
        (increment_gpu_job s).auto_disabled = false
        ∧ (increment_gpu_job s).consecutive_failures = 0) := by
  have hfields : ∀ t : GpuState,
      (record_gpu_failure t).consecutive_failures = t.consecutive_failures + 1 ∧
      (record_gpu_failure t).auto_disabled =
        (t.auto_disabled || decide (3 ≤ t.consecutive_failures + 1)) := by
    intro t
    unfold record_gpu_failure
    by_cases hc : 3 ≤ t.consecutive_failures + 1 ∧ t.auto_disabled = false
    · rw [if_pos hc]
      exact ⟨rfl, by simp [hc.1]⟩
    · rw [if_neg hc]
      refine ⟨rfl, ?_⟩
      by_cases h3 : 3 ≤ t.consecutive_failures + 1
      · have hb : t.auto_disabled = true := by
          rcases Bool.eq_false_or_eq_true t.auto_disabled with hb | hb
          · exact hb
          · exact absurd ⟨h3, hb⟩ hc
        simp [hb]
      · simp [h3]
  refine ⟨?_, ?_, ?_⟩
  · intro n
    induction n with
    | zero => exact ⟨rfl, rfl⟩
    | succ m ih =>
      rw [Function.iterate_succ_apply']
      obtain ⟨ihf, ihd⟩ := ih
      obtain ⟨hf1, hf2⟩ := hfields (record_gpu_failure^[m] gpuInit)
      rw [hf1, hf2, ihf, ihd]
      refine ⟨rfl, ?_⟩
      by_cases hm : 3 ≤ m <;> by_cases hm1 : 3 ≤ m + 1 <;>
        first
        | omega
        | (simp [hm, hm1])
  · intro s hdis
    have hstep : ∀ t : GpuState, t.auto_disabled = true →
        increment_cpu_job t =
          { t with jobs_cpu := t.jobs_cpu + 1,
                   cpu_jobs_since_last_retry := t.cpu_jobs_since_last_retry + 1 } := by
      intro t ht
      unfold increment_cpu_job
      rw [if_pos (by simpa using ht)]
    have hiter : ∀ k : Nat,
        (increment_cpu_job^[k] s).cpu_jobs_since_last_retry =
          s.cpu_jobs_since_last_retry + k ∧
        (increment_cpu_job^[k] s).auto_disabled = true := by
      intro k
      induction k with
      | zero => exact ⟨rfl, hdis⟩
      | succ m ih =>
        rw [Function.iterate_succ_apply']
        rw [hstep _ ih.2]
        exact ⟨by simp [ih.1]; omega, ih.2⟩
    refine ⟨?_, ?_, (hiter 10).1, (hiter 10).2⟩
    · unfold get_gpu_config
      by_cases h10 : 10 ≤ s.cpu_jobs_since_last_retry
      · rw [if_pos ⟨by simpa using hdis, rfl⟩, if_pos h10]
        simp [h10]
      · rw [if_pos ⟨by simpa using hdis, rfl⟩, if_neg h10]
        simp [h10]
    · intro h10
      unfold get_gpu_config
      rw [if_pos ⟨by simpa using hdis, rfl⟩, if_pos h10]
  · intro s
    exact ⟨rfl, rfl⟩

/-- Witness for C6: three failures from the initial state auto-disable the
breaker; with a full retry window one call is let through and resets the
window; a GPU success re-enables. -/
theorem gpu_breaker_behavior_witness :
    (record_gpu_failure^[3] gpuInit).auto_disabled = decide (3 ≤ 3)
    ∧ (record_gpu_failure^[2] gpuInit).auto_disabled = decide (3 ≤ 2)
    ∧ (get_gpu_config true gpuDisabledW).1 =
        decide (10 ≤ gpuDisabledW.cpu_jobs_since_last_retry)
    ∧ (increment_gpu_job gpuDisabledW).auto_disabled = false :=
  ⟨(gpu_breaker_behavior.1 3).2, (gpu_breaker_behavior.1 2).2,
   (gpu_breaker_behavior.2.1 gpuDisabledW rfl).1,
   (gpu_breaker_behavior.2.2 gpuDisabledW).1⟩

/-- C8: the hash worker never aborts on a failed hash: it emits exactly one
metadata job per input job, in order, and a failed job's output carries an
xxh3 fingerprint of zero and no SHA-256 digest. -/
theorem hash_worker_error_resilience
    (hashFn : HashJob → Except (List Char) (Int × Option (List Nat)))
    (jobs : List HashJob) :
    (hash_worker_outputs hashFn jobs).length = jobs.length
    ∧ (∀ i (h : i < jobs.length),
        (hash_worker_outputs hashFn jobs).get ⟨i, by simpa [hash_worker_outputs] using h⟩ =
          process_hash_job (jobs.get ⟨i, h⟩) (hashFn (jobs.get ⟨i, h⟩)))
    ∧ (∀ j err, hashFn j = Except.error err →
        process_hash_job j (hashFn j) = { job := j, xxh64 := some 0, sha256 := none }) := by
  refine ⟨by simp [hash_worker_outputs], ?_, ?_⟩
  · intro i h
    simp [hash_worker_outputs]
  · intro j err herr
    rw [herr]
    rfl

/-- Witness for C8: a worker whose hashes always fail still emits one job
with zero xxh3 and no SHA-256. -/
theorem hash_worker_error_resilience_witness :
    (hash_worker_outputs (fun _ => Except.error ("io".toList)) [hashJobW]).length = 1
    ∧ process_hash_job hashJobW ((fun _ => Except.error ("io".toList)) hashJobW) =
        { job := hashJobW, xxh64 := some 0, sha256 := none } :=
  ⟨(hash_worker_error_resilience (fun _ => Except.error ("io".toList)) [hashJobW]).1,
   (hash_worker_error_resilience (fun _ => Except.error ("io".toList)) [hashJobW]).2.2
     hashJobW ("io".toList) rfl⟩

theorem orderedInsert_congr {α : Type} {r s : α → α → Prop}
    [DecidableRel r] [DecidableRel s]
    (h : ∀ a b, r a b ↔ s a b) (a : α) :
    ∀ l : List α, l.orderedInsert r a = l.orderedInsert s a
  | [] => rfl
  | b :: l => by
    unfold List.orderedInsert
    by_cases hr : r a b
    · rw [if_pos hr, if_pos ((h a b).mp hr)]
    · rw [if_neg hr, if_neg (fun hs => hr ((h a b).mpr hs)), orderedInsert_congr h a l]

theorem insertionSort_congr {α : Type} {r s : α → α → Prop}
    [DecidableRel r] [DecidableRel s] (h : ∀ a b, r a b ↔ s a b) :
    ∀ l : List α, l.insertionSort r = l.insertionSort s
  | [] => rfl
  | a :: l => by
    simp only [List.insertionSort]
    rw [insertionSort_congr h l, orderedInsert_congr h a]

theorem sortColumnCmp_default (sort ord : List Char)
    (h1 : sort ≠ "taken_at".toList) (h2 : sort ≠ "filename".toList)
    (h3 : sort ≠ "size_bytes".toList) (a b : AssetR) :
    sortColumnCmp sort ord a b = dirCmp ord cmpInt a.mtime_ns b.mtime_ns := by
  unfold sortColumnCmp
  rw [if_neg (by simpa using h1), if_neg (by simpa using h2), if_neg (by simpa using h3)]

/-- C9 counterexample: with an unknown sort value and order `asc`, the page
comes back ordered by mtime **ascending**, so the claim's "any unknown sort
value falls back to mtime descending" is false on the code (the direction
still follows the order parameter). -/
theorem list_assets_unknown_asc_counterexample :
    (list_assets tbl2W 0 10 ("bogus".toList) ("asc".toList)).items = [a1W, a2W]
    ∧ a1W.mtime_ns < a2W.mtime_ns
    ∧ ((list_assets tbl2W 0 10 ("bogus".toList) ("asc".toList)).items.Pairwise
        (fun a b => b.mtime_ns ≤ a.mtime_ns) → False) := by
  refine ⟨by decide, by decide, ?_⟩
  intro h
  have hitems : (list_assets tbl2W 0 10 ("bogus".toList) ("asc".toList)).items =
      [a1W, a2W] := by decide
  rw [hitems] at h
  have hle := (List.pairwise_cons.mp h).1 a2W (by simp)
  revert hle
  decide

/-- C9 (amended): the paged listing accepts sort fields `filename`,
`size_bytes`, `mtime`, `mtime_ns`, `taken_at` and `none`; any unknown sort
value falls back to the `mtime_ns` column with the direction still taken
from the order parameter (so descending unless the order is `asc`, in which
case ascending); `mtime` and `mtime_ns` coincide; sorting by `taken_at`
places rows with null capture time last. -/
theorem list_assets_sort_contract :
    (∀ (table : List AssetR) (offset limit : Int) (sort ord : List Char),
      sort ≠ "none".toList → sort ≠ "taken_at".toList → sort ≠ "filename".toList →
      sort ≠ "size_bytes".toList →
      list_assets table offset limit sort ord =
        list_assets table offset limit ("mtime".toList) ord)
    ∧ (∀ (table : List AssetR) (offset limit : Int) (ord : List Char),
        list_assets table offset limit ("mtime".toList) ord =
          list_assets table offset limit ("mtime_ns".toList) ord)
    ∧ (∀ (table : List AssetR) (offset limit : Int) (sort ord : List Char),
        sort ≠ "none".toList → sort ≠ "taken_at".toList → sort ≠ "filename".toList →
        sort ≠ "size_bytes".toList → ord ≠ "asc".toList →
        (list_assets table offset limit sort ord).items.Pairwise
          (fun a b => b.mtime_ns ≤ a.mtime_ns))
    ∧ (∀ (table : List AssetR) (offset limit : Int) (ord : List Char),
        (list_assets table offset limit ("taken_at".toList) ord).items.Pairwise
          (fun a b => a.taken_at = none → b.taken_at = none)) := by
  have hsortedPage : ∀ (table : List AssetR) (offset limit : Int) (sort ord : List Char),
      sort ≠ "none".toList →
      (list_assets table offset limit sort ord).items.Pairwise (sortColumnLe sort ord) := by
    intro table offset limit sort ord hn
    unfold list_assets
    rw [if_neg (by simpa using hn)]
    dsimp only
    have hs : (table.insertionSort (sortColumnLe sort ord)).Pairwise (sortColumnLe sort ord) :=
      List.sorted_insertionSort (sortColumnLe sort ord) table
    exact List.Pairwise.sublist ((List.take_sublist _ _).trans (List.drop_sublist _ _)) hs
  refine ⟨?_, ?_, ?_, ?_⟩
  · intro table offset limit sort ord h0 h1 h2 h3
    have hiff : ∀ a b, sortColumnLe sort ord a b ↔ sortColumnLe ("mtime".toList) ord a b := by
      intro a b
      unfold sortColumnLe
      rw [sortColumnCmp_default sort ord h1 h2 h3,
          sortColumnCmp_default ("mtime".toList) ord (by decide) (by decide) (by decide)]
    unfold list_assets
    rw [if_neg (by simpa using h0), if_neg (by decide)]
    rw [insertionSort_congr hiff table]
  · intro table offset limit ord
    have hiff : ∀ a b,
        sortColumnLe ("mtime".toList) ord a b ↔ sortColumnLe ("mtime_ns".toList) ord a b := by
      intro a b
      unfold sortColumnLe
      rw [sortColumnCmp_default ("mtime".toList) ord (by decide) (by decide) (by decide),
          sortColumnCmp_default ("mtime_ns".toList) ord (by decide) (by decide) (by decide)]
    unfold list_assets
    rw [if_neg (by decide), if_neg (by decide)]
    rw [insertionSort_congr hiff table]
  · intro table offset limit sort ord h0 h1 h2 h3 hasc
    refine (hsortedPage table offset limit sort ord h0).imp ?_
    intro a b hab
    unfold sortColumnLe at hab
    rw [sortColumnCmp_default sort ord h1 h2 h3] at hab
    unfold dirCmp at hab
    rw [if_neg (by simpa using hasc)] at hab
    unfold flip cmpInt at hab
    split_ifs at hab <;> first | omega | exact absurd rfl hab
  · intro table offset limit ord
    refine (hsortedPage table offset limit ("taken_at".toList) ord (by decide)).imp ?_
    intro a b hab hnone
    unfold sortColumnLe sortColumnCmp at hab
    rw [if_pos (by decide)] at hab
    rw [hnone] at hab
    cases hb : b.taken_at with
    | none => rfl
    | some v =>
      rw [hb] at hab
      exact absurd rfl hab

/-- Witness for C9 (amended): the unknown sort value `bogus` with ascending
order produces exactly the `mtime` ascending page on the two-asset fixture. -/
theorem list_assets_sort_contract_witness :
    list_assets tbl2W 0 10 ("bogus".toList) ("asc".toList) =
      list_assets tbl2W 0 10 ("mtime".toList) ("asc".toList) :=
  (list_assets_sort_contract.1) tbl2W 0 10 ("bogus".toList) ("asc".toList)
    (by decide) (by decide) (by decide) (by decide)

/-- C7: a search whose query is exactly `*.*` (with no text terms) applies no
filename constraint: the result is exactly the spec-side description — all
assets passing the structured filters, ordered by filename ascending, then
capture time descending with nulls last, then mtime descending, with the
total reported as filename match hits — and the returned page is sorted by
that ordering. -/
theorem search_star_no_filename_constraint (fts : List Char → AssetR → Bool)
    (table : List AssetR) (p : SearchParamsM) (hq : p.q = "*.*".toList) :
    search_assets fts table p = searchStarSpec table p ∧
    (search_assets fts table p).items.Pairwise wildcardLe := by
  have hmain : search_assets fts table p = searchStarSpec table p := by
    unfold search_assets searchStarSpec
    rw [hq]
    simp +decide [show wordsL (trimL ['*', '.', '*']) = [['*', '.', '*']] from rfl]
  refine ⟨hmain, ?_⟩
  rw [hmain]
  unfold searchStarSpec
  dsimp only
  have hs : ((table.filter (structuredFiltersB p)).insertionSort wildcardLe).Pairwise
      wildcardLe :=
    List.sorted_insertionSort wildcardLe (table.filter (structuredFiltersB p))
  exact List.Pairwise.sublist ((List.take_sublist _ _).trans (List.drop_sublist _ _)) hs

/-- Witness for C7: the `*.*` search over the two-asset fixture with a
constant-true FTS engine equals the spec-side description. -/
theorem search_star_no_filename_constraint_witness :
    search_assets (fun _ _ => true) tbl2W starParamsW = searchStarSpec tbl2W starParamsW ∧
    (search_assets (fun _ _ => true) tbl2W starParamsW).items.Pairwise wildcardLe :=
  search_star_no_filename_constraint (fun _ _ => true) tbl2W starParamsW rfl

end Seen
